import Mathlib

/-!
Verification of the analysis-orchestration core of the
capital-stack-wizardry-app repository.

The definitions below are a shallow embedding of the TypeScript source:

* `src/src/utils/replicateAnalyzer.ts` — the `ReplicateBusinessAnalyzer`
  class: `analyzeFinancials` / `analyzeStrategy` / `analyzeMarket` /
  `analyzeRisks`, `runComprehensiveAnalysis`, `calculateCompositeScore`,
  `clampToDbPrecision` and the four fallback generators.
* `src/unnamed/part_000` — the repository's implementation-pattern document,
  whose code blocks hold `cleanAndParseJSON`, the NaN-guarded
  `clampToDbPrecision` variant, and the `callAIModel` retry loop.

Modelling conventions:

* JavaScript numbers are modelled by `JSNum`: `NaN`, the two infinities, and
  finite values as exact rationals (`ℚ`).  Double rounding error is not
  modelled; `toFixed` is modelled as exact decimal rounding (half up).
* JavaScript objects whose fields may be absent (`undefined`) are modelled by
  structures with `Option` fields; the `x || d` defaulting idiom is modelled
  by `jor` / `sor` / `Option.getD`, matching JS falsiness (absent, `NaN` and
  `0` are falsy; infinities, nonzero numbers, nonempty strings and arrays,
  including the empty array, are truthy).
* A `catch` that substitutes a fallback is modelled by the provider outcome
  being an `Option`: `none` stands for any failure along the
  invoke/success-check chain, `some d` for a successful provider payload.
* `Promise.all` destructures positionally, so `runComprehensiveAnalysis`
  takes the settled provider outcomes as a record; arrival order is modelled
  separately (`settleAll`) for the order-independence property.
* Wall-clock metadata (`timestamp`, `analysis_metadata`) is real-time and is
  not part of any claim; it is omitted from the embedded result record.
-/

/-- Rounding used by the model of JS `toFixed`: nearest integer, half up.
JS rounds on the exact decimal expansion of the double; on the exact
rationals of this model half-up agrees except at ties, which the theorems
below avoid. -/
def jsRound (q : ℚ) : ℤ := ⌊q + 1/2⌋

/-- Round a rational to `k` decimal digits (model of `Number(x.toFixed(k))`
for finite `x`). -/
def roundTo (q : ℚ) (k : ℕ) : ℚ := (jsRound (q * (10:ℚ)^k) : ℚ) / (10:ℚ)^k

/-- A JavaScript number: `NaN`, `±Infinity`, or a finite value (modelled as
an exact rational). -/
inductive JSNum where
  | nan : JSNum
  | posInf : JSNum
  | negInf : JSNum
  | fin : ℚ → JSNum
deriving DecidableEq

/-- JS division of two finite numbers (`a / b`), including the division-by-zero
behaviour: `x/0` is `±Infinity` for `x ≠ 0` and `NaN` for `0/0`.
(The sign of a signed zero divisor is not modelled; `0` is `+0`.) -/
def jdiv (a b : ℚ) : JSNum :=
  if b = 0 then
    if a = 0 then .nan else if 0 < a then .posInf else .negInf
  else .fin (a / b)

/-- JS multiplication of a number by a finite constant. -/
def jmulc : JSNum → ℚ → JSNum
  | .nan, _ => .nan
  | .posInf, c => if 0 < c then .posInf else if c < 0 then .negInf else .nan
  | .negInf, c => if 0 < c then .negInf else if c < 0 then .posInf else .nan
  | .fin q, c => .fin (q * c)

/-- JS addition. -/
def jadd : JSNum → JSNum → JSNum
  | .nan, _ => .nan
  | _, .nan => .nan
  | .posInf, .negInf => .nan
  | .negInf, .posInf => .nan
  | .posInf, _ => .posInf
  | _, .posInf => .posInf
  | .negInf, _ => .negInf
  | _, .negInf => .negInf
  | .fin a, .fin b => .fin (a + b)

/-- JS `1 - x`. -/
def jOneSub : JSNum → JSNum
  | .nan => .nan
  | .posInf => .negInf
  | .negInf => .posInf
  | .fin q => .fin (1 - q)

/-- JS `Math.max(0, x)`. -/
def jmax0 : JSNum → JSNum
  | .nan => .nan
  | .posInf => .posInf
  | .negInf => .fin 0
  | .fin q => .fin (max 0 q)

/-- JS `Math.min(x, m)` for a finite bound `m`. -/
def jminc : JSNum → ℚ → JSNum
  | .nan, _ => .nan
  | .posInf, m => .fin m
  | .negInf, _ => .negInf
  | .fin q, m => .fin (min q m)

/-- Model of `Number(x.toFixed(k))`: decimal rounding for finite values;
`NaN` and the infinities round-trip through their string forms unchanged. -/
def jToFixed : JSNum → ℕ → JSNum
  | .nan, _ => .nan
  | .posInf, _ => .posInf
  | .negInf, _ => .negInf
  | .fin q, k => .fin (roundTo q k)

/-- JS `x || d` for an optional numeric field: absent, `NaN` and `0` are
falsy and give the default; everything else (including `±Infinity`) is kept. -/
def jor (x : Option JSNum) (d : ℚ) : JSNum :=
  match x with
  | none => .fin d
  | some .nan => .fin d
  | some (.fin q) => if q = 0 then .fin d else .fin q
  | some v => v

/-- JS `s || d` for an optional string field: absent and `""` are falsy. -/
def sor (x : Option String) (d : String) : String :=
  match x with
  | none => d
  | some s => if s = ("") then d else s

/-- `clampToDbPrecision` from `src/src/utils/replicateAnalyzer.ts` (lines
306–308): `Math.min(Math.max(0, value), maxValue)`.  The default `maxValue`
at every call site is `9.9999`.  Note: no NaN guard and no rounding. -/
def clampToDbPrecision (value : JSNum) (maxValue : ℚ) : JSNum :=
  jminc (jmax0 value) maxValue

/-- `clampToDbPrecision` from `src/unnamed/part_000` (lines 349–353): the
variant with a NaN/non-number guard returning `0`, and a final
`Number(….toFixed(3))`.  Its default `maxValue` is `9.999`. -/
def clampToDbPrecisionDoc (value : JSNum) (maxValue : ℚ) : JSNum :=
  if value = .nan then .fin 0
  else jToFixed (jminc (jmax0 value) maxValue) 3

/-- A candidate business, as consumed by the analyzer (`business_data`).
Monetary inputs are finite numbers coming from the record store. -/
structure BusinessRecord where
  business_name : String
  sector : String
  asking_price : ℚ
  annual_revenue : ℚ
  annual_net_profit : ℚ
deriving DecidableEq

/-- Fields of a financial domain analysis that the pipeline reads or the
fallback generator writes.  Provider payloads are open JS objects, so every
field is optional. -/
structure FinancialAnalysis where
  financial_health_score : Option JSNum
  automation_score : Option JSNum
  revenue_quality : Option String
  profit_margins : Option String
  cash_flow_predictability : Option JSNum
  growth_trajectory : Option String
  analysis_source : Option String
  confidence_score : Option JSNum
deriving DecidableEq

/-- Fields of a strategic domain analysis. -/
structure StrategicAnalysis where
  strategic_value_score : Option JSNum
  competitive_moat : Option String
  market_position : Option String
  scalability_potential : Option JSNum
  recommended_ownership_model : Option String
  strategic_flags : Option (List String)
  seller_financing_likely : Option Bool
  government_contracts : Option Bool
  analysis_source : Option String
  confidence_score : Option JSNum
deriving DecidableEq

/-- Fields of a market domain analysis. -/
structure MarketAnalysis where
  market_size : Option String
  market_growth_rate : Option String
  competitive_intensity : Option JSNum
  market_trends : Option (List String)
  analysis_source : Option String
  confidence_score : Option JSNum
deriving DecidableEq

/-- Fields of a risk domain analysis. -/
structure RiskAnalysis where
  overall_risk_score : Option JSNum
  key_risks : Option (List String)
  resilience_factors : Option (List String)
  mitigation_strategies : Option (List String)
  analysis_source : Option String
  confidence_score : Option JSNum
deriving DecidableEq

/-- Decimal digit string of a natural number quotient/remainder pair used by
`ratToFixed1`. -/
def natPart (m : ℕ) : String := (toString (m / 10)) ++ (".") ++ (toString (m % 10))

/-- Finite case of JS `x.toFixed(1)`. -/
def ratToFixed1 (q : ℚ) : String :=
  let n : ℤ := jsRound (q * 10)
  if n < 0 then ("-") ++ natPart n.natAbs else natPart n.toNat

/-- JS `x.toFixed(1)` as a string, including the non-finite cases. -/
def jToFixedStr1 : JSNum → String
  | .nan => ("NaN")
  | .posInf => ("Infinity")
  | .negInf => ("-Infinity")
  | .fin q => ratToFixed1 q

/-- `generateFallbackFinancialAnalysis` (replicateAnalyzer.ts lines 322–333):
only `profit_margins` depends on the record, via
`((annual_net_profit / annual_revenue) * 100).toFixed(1) + "%"`. -/
def generateFallbackFinancialAnalysis (business : BusinessRecord) : FinancialAnalysis :=
  { financial_health_score := some (.fin 0.7)
  , automation_score := some (.fin 0.6)
  , revenue_quality := some ("recurring")
  , profit_margins :=
      some (jToFixedStr1 (jmulc (jdiv business.annual_net_profit business.annual_revenue) 100) ++ ("%"))
  , cash_flow_predictability := some (.fin 0.7)
  , growth_trajectory := some ("stable")
  , analysis_source := some ("fallback")
  , confidence_score := some (.fin 0.6) }

/-- `generateFallbackStrategicAnalysis` (lines 335–346): constant. -/
def generateFallbackStrategicAnalysis (_business : BusinessRecord) : StrategicAnalysis :=
  { strategic_value_score := some (.fin 0.7)
  , competitive_moat := some ("moderate")
  , market_position := some ("challenger")
  , scalability_potential := some (.fin 0.6)
  , recommended_ownership_model := some ("semi-absentee")
  , strategic_flags := some [("platform_potential"), ("operational_optimization")]
  , seller_financing_likely := none
  , government_contracts := none
  , analysis_source := some ("fallback")
  , confidence_score := some (.fin 0.6) }

/-- `generateFallbackMarketAnalysis` (lines 348–357): constant. -/
def generateFallbackMarketAnalysis (_business : BusinessRecord) : MarketAnalysis :=
  { market_size := some ("medium")
  , market_growth_rate := some ("stable")
  , competitive_intensity := some (.fin 0.6)
  , market_trends := some [("digital_transformation"), ("consolidation")]
  , analysis_source := some ("fallback")
  , confidence_score := some (.fin 0.6) }

/-- `generateFallbackRiskAnalysis` (lines 359–368): constant. -/
def generateFallbackRiskAnalysis (_business : BusinessRecord) : RiskAnalysis :=
  { overall_risk_score := some (.fin 0.4)
  , key_risks := some [("market_competition"), ("economic_downturn")]
  , resilience_factors := some [("essential_service"), ("recurring_revenue")]
  , mitigation_strategies := some [("diversification"), ("operational_improvements")]
  , analysis_source := some ("fallback")
  , confidence_score := some (.fin 0.6) }

/-- `analyzeFinancials` (lines 23–51): on success the provider payload is kept
with `analysis_source`/`confidence_score` overwritten; any failure (invoke
error, `!response.success`) is caught and the fallback substituted. -/
def analyzeFinancials (providerOutcome : Option FinancialAnalysis)
    (businessData : BusinessRecord) : FinancialAnalysis :=
  match providerOutcome with
  | some d =>
      { d with analysis_source := some ("replicate_llama"),
               confidence_score := some (.fin 0.85) }
  | none => generateFallbackFinancialAnalysis businessData

/-- `analyzeStrategy` (lines 56–84). -/
def analyzeStrategy (providerOutcome : Option StrategicAnalysis)
    (businessData : BusinessRecord) : StrategicAnalysis :=
  match providerOutcome with
  | some d =>
      { d with analysis_source := some ("replicate_mixtral"),
               confidence_score := some (.fin 0.88) }
  | none => generateFallbackStrategicAnalysis businessData

/-- `analyzeMarket` (lines 89–117). -/
def analyzeMarket (providerOutcome : Option MarketAnalysis)
    (businessData : BusinessRecord) : MarketAnalysis :=
  match providerOutcome with
  | some d =>
      { d with analysis_source := some ("replicate_market"),
               confidence_score := some (.fin 0.82) }
  | none => generateFallbackMarketAnalysis businessData

/-- `analyzeRisks` (lines 122–150). -/
def analyzeRisks (providerOutcome : Option RiskAnalysis)
    (businessData : BusinessRecord) : RiskAnalysis :=
  match providerOutcome with
  | some d =>
      { d with analysis_source := some ("replicate_risk"),
               confidence_score := some (.fin 0.87) }
  | none => generateFallbackRiskAnalysis businessData

/-- Market growth keyword to score mapping inside `calculateCompositeScore`:
`=== 'rapidly_growing' ? 0.9 : 'growing' ? 0.7 : 'stable' ? 0.5 : 0.3`. -/
def marketScoreOf (g : Option String) : ℚ :=
  if g = some ("rapidly_growing") then 0.9
  else if g = some ("growing") then 0.7
  else if g = some ("stable") then 0.5
  else 0.3

/-- `calculateCompositeScore` (lines 310–319): `|| 0.7` / `|| 0.3` defaulted
scores, risk inverted, fixed weights 0.3/0.3/0.2/0.2, and a final
`Number(….toFixed(2))` — two decimal digits. -/
def calculateCompositeScore (financial : FinancialAnalysis)
    (strategic : StrategicAnalysis) (market : MarketAnalysis)
    (risk : RiskAnalysis) : JSNum :=
  let financialScore := jor financial.financial_health_score 0.7
  let strategicScore := jor strategic.strategic_value_score 0.7
  let marketScore : JSNum := .fin (marketScoreOf market.market_growth_rate)
  let riskScore := jOneSub (jor risk.overall_risk_score 0.3)
  jToFixed
    (jadd (jadd (jadd (jmulc financialScore 0.3) (jmulc strategicScore 0.3))
        (jmulc marketScore 0.2)) (jmulc riskScore 0.2)) 2

/-- Trim of a character list (model of JS `String.trim`, ASCII whitespace). -/
def wsCharB (c : Char) : Bool := c = ' ' || c = '\n' || c = '\t' || c = '\r'

/-- Characters of a string with surrounding whitespace removed. -/
def trimChars (l : List Char) : List Char :=
  ((l.dropWhile wsCharB).reverse.dropWhile wsCharB).reverse

/-- JS `s.trim()`. -/
def strTrim (s : String) : String := String.mk (trimChars s.data)

/-- `generateInvestmentThesis` (lines 214–255): on provider success the output
text is trimmed and returned, on any failure the template sentence is built
from the record. -/
def generateInvestmentThesis (providerOutput : Option String)
    (businessData : BusinessRecord) : String :=
  match providerOutput with
  | some out => strTrim out
  | none =>
      ("Investment Thesis: ") ++ businessData.business_name ++
      (" represents a compelling acquisition opportunity in the ") ++
      businessData.sector ++
      (" sector with strong financial performance and significant potential for AI-driven operational optimization.")

/-- `generateExecutiveSummary` (lines 260–303). -/
def generateExecutiveSummary (providerOutput : Option String)
    (businessData : BusinessRecord) : String :=
  match providerOutput with
  | some out => strTrim out
  | none =>
      ("Executive Summary: ") ++ businessData.business_name ++
      (" represents a compelling acquisition opportunity in the ") ++
      businessData.sector ++
      (" sector with strong financial performance and growth potential.")

/-- The settled outcome of every provider call of one comprehensive run:
`none` marks a failed call (absorbed by the corresponding `catch`). -/
structure ProviderOutcomes where
  financial : Option FinancialAnalysis
  strategic : Option StrategicAnalysis
  market : Option MarketAnalysis
  risk : Option RiskAnalysis
  thesis : Option String
  summary : Option String
deriving DecidableEq

/-- The record returned by `runComprehensiveAnalysis` (lines 155–209), minus
the wall-clock `analysis_metadata` block. -/
structure CompositeAssessment where
  automation_opportunity_score : JSNum
  composite_score : JSNum
  ownership_model : String
  resilience_factors : List String
  strategic_flags : List String
  cap_rate : JSNum
  payback_years : JSNum
  seller_financing : Bool
  government_contracts : Bool
  financial_analysis : FinancialAnalysis
  market_analysis : MarketAnalysis
  strategic_assessment : StrategicAnalysis
  risk_evaluation : RiskAnalysis
  investment_thesis : String
  executive_summary : String
deriving DecidableEq

/-- `runComprehensiveAnalysis` (lines 155–209).  The four domain analyses and
the two narrative calls have already settled (each `analyzeX` absorbs its own
failure); the derived ratios are
`cap_rate = (annual_net_profit / asking_price) * 100` and
`payback_years = asking_price / annual_net_profit`, each through
`Number(x.toFixed(1))`, with no sentinel cap. -/
def runComprehensiveAnalysis (outcomes : ProviderOutcomes)
    (businessData : BusinessRecord) : CompositeAssessment :=
  let financialAnalysis := analyzeFinancials outcomes.financial businessData
  let strategicAnalysis := analyzeStrategy outcomes.strategic businessData
  let marketAnalysis := analyzeMarket outcomes.market businessData
  let riskAnalysis := analyzeRisks outcomes.risk businessData
  let cap_rate := jmulc (jdiv businessData.annual_net_profit businessData.asking_price) 100
  let payback_years := jdiv businessData.asking_price businessData.annual_net_profit
  { automation_opportunity_score :=
      clampToDbPrecision (jor financialAnalysis.automation_score 0.7) 9.9999
  , composite_score :=
      clampToDbPrecision
        (calculateCompositeScore financialAnalysis strategicAnalysis
          marketAnalysis riskAnalysis) 9.9999
  , ownership_model := sor strategicAnalysis.recommended_ownership_model ("semi-absentee")
  , resilience_factors := riskAnalysis.resilience_factors.getD [("essential-service")]
  , strategic_flags := strategicAnalysis.strategic_flags.getD [("platform_potential")]
  , cap_rate := jToFixed cap_rate 1
  , payback_years := jToFixed payback_years 1
  , seller_financing := strategicAnalysis.seller_financing_likely.getD false
  , government_contracts := strategicAnalysis.government_contracts.getD false
  , financial_analysis := financialAnalysis
  , market_analysis := marketAnalysis
  , strategic_assessment := strategicAnalysis
  , risk_evaluation := riskAnalysis
  , investment_thesis := generateInvestmentThesis outcomes.thesis businessData
  , executive_summary := generateExecutiveSummary outcomes.summary businessData }

/-! ## Response Normalizer (`cleanAndParseJSON`, `src/unnamed/part_000`)

The character constants below avoid spelling structural characters inline. -/

/-- The backtick character. -/
def btick : Char := Char.ofNat 96

/-- Opening curly brace. -/
def lbrace : Char := Char.ofNat 123

/-- Closing curly brace. -/
def rbrace : Char := Char.ofNat 125

/-- Opening square bracket. -/
def lbrack : Char := '['

/-- Closing square bracket. -/
def rbrack : Char := ']'

/-- The double-quote character. -/
def quoteC : Char := Char.ofNat 34

/-- Drop one leading newline if present (the `\n?` part of the fence regex). -/
def dropNl : List Char → List Char
  | '\n' :: cs => cs
  | cs => cs

/-- One global-replace pass deleting `pat` plus an optional trailing newline,
scanning left to right without rescanning output, as JS
`text.replace(/pat\n?/g, '')` does.  Fuel is the input length; every step
consumes at least one character. -/
def stripFenceF (pat : List Char) : ℕ → List Char → List Char
  | 0, s => s
  | _+1, [] => []
  | fuel+1, c :: cs =>
    if pat.isPrefixOf (c :: cs) then
      stripFenceF pat fuel (dropNl ((c :: cs).drop pat.length))
    else c :: stripFenceF pat fuel cs

/-- Global replace of a fence pattern by the empty string. -/
def stripFence (pat : List Char) (l : List Char) : List Char :=
  stripFenceF pat l.length l

/-- The characters of the opening fence marker. -/
def fenceJson : List Char := [btick, btick, btick, 'j', 's', 'o', 'n']

/-- The characters of a bare fence marker. -/
def fenceBare : List Char := [btick, btick, btick]

/-- `text.replace(/```json\n?/g, '')`. -/
def stripJsonFence (l : List Char) : List Char := stripFence fenceJson l

/-- `text.replace(/```\n?/g, '')`. -/
def stripBareFence (l : List Char) : List Char := stripFence fenceBare l

/-- Whether `pat` occurs as a contiguous run anywhere in the list. -/
def containsSeq (pat : List Char) : List Char → Bool
  | [] => pat.isPrefixOf []
  | c :: cs => pat.isPrefixOf (c :: cs) || containsSeq pat cs

/-- Lookahead for the `,\s*X` regex: after a comma, skip whitespace; on the
closer `close` return the remainder after it, otherwise fail. -/
def commaCloseLook (close : Char) : List Char → Option (List Char)
  | [] => none
  | c :: cs =>
    if c = close then some cs
    else if wsCharB c then commaCloseLook close cs
    else none

/-- Global replace of `,\s*close` by `close` (JS `/,\s*}/g` and `/,\s*]/g`):
the emitted closer is not rescanned, matching JS replace semantics. -/
def stripCommaCloseF (close : Char) : ℕ → List Char → List Char
  | 0, s => s
  | _+1, [] => []
  | fuel+1, c :: cs =>
    if c = ',' then
      match commaCloseLook close cs with
      | some cs2 => close :: stripCommaCloseF close fuel cs2
      | none => c :: stripCommaCloseF close fuel cs
    else c :: stripCommaCloseF close fuel cs

/-- Wrapper running the comma-closer replace with sufficient fuel. -/
def stripCommaClose (close : Char) (l : List Char) : List Char :=
  stripCommaCloseF close l.length l

/-- Whether the comma-closer regex matches anywhere in the list. -/
def hasCommaClose (close : Char) : List Char → Bool
  | [] => false
  | c :: cs => (c = ',' && (commaCloseLook close cs).isSome) || hasCommaClose close cs

/-- The `indexOf('{')` / `lastIndexOf('}')` / `slice(start, end + 1)` step of
the part_000 (lines 1448–1464) variant of `cleanAndParseJSON`; identity when
either brace is absent. -/
def braceSlice (l : List Char) : List Char :=
  if lbrace ∈ l ∧ rbrace ∈ l then
    let start := l.indexOf lbrace
    let stop := l.length - 1 - l.reverse.indexOf rbrace
    (l.take (stop + 1)).drop start
  else l

/-- A parsed JSON document (the structured record the Normalizer produces). -/
inductive Json where
  | null : Json
  | bool : Bool → Json
  | num : ℚ → Json
  | str : String → Json
  | arr : List Json → Json
  | obj : List (String × Json) → Json

/-- Skip JSON whitespace. -/
def skipWs : List Char → List Char
  | [] => []
  | c :: cs => if wsCharB c then skipWs cs else c :: cs

/-- Scan a run of decimal digits, returning value, digit count and rest. -/
def parseDigitsC (acc cnt : ℕ) : List Char → ℕ × ℕ × List Char
  | [] => (acc, cnt, [])
  | c :: cs =>
    if c.isDigit then parseDigitsC (acc * 10 + (c.toNat - 48)) (cnt + 1) cs
    else (acc, cnt, c :: cs)

/-- Body of a JSON string literal, after the opening quote.  The `\uXXXX`
escape is outside the model (the theorems never feed it). -/
def parseStr (acc : List Char) : List Char → Option (String × List Char)
  | [] => none
  | '\\' :: e :: cs2 =>
    if e = quoteC then parseStr (quoteC :: acc) cs2
    else if e = '\\' then parseStr ('\\' :: acc) cs2
    else if e = '/' then parseStr ('/' :: acc) cs2
    else if e = 'n' then parseStr ('\n' :: acc) cs2
    else if e = 't' then parseStr ('\t' :: acc) cs2
    else if e = 'r' then parseStr ('\r' :: acc) cs2
    else if e = 'b' then parseStr (Char.ofNat 8 :: acc) cs2
    else if e = 'f' then parseStr (Char.ofNat 12 :: acc) cs2
    else none
  | c :: cs =>
    if c = quoteC then some (String.mk acc.reverse, cs)
    else parseStr (c :: acc) cs

/-- Exponent part of a JSON number, after `e`/`E`. -/
def parseExp (r : List Char) : Option (Bool × ℕ × List Char) :=
  let signed : Bool × List Char :=
    match r with
    | '+' :: r2 => (false, r2)
    | '-' :: r2 => (true, r2)
    | r2 => (false, r2)
  match parseDigitsC 0 0 signed.2 with
  | (ev, ec, l4) => if ec = 0 then none else some (signed.1, ev, l4)

/-- A JSON number literal. -/
def parseNum (l : List Char) : Option (Json × List Char) :=
  let signed : Bool × List Char :=
    match l with
    | '-' :: r => (true, r)
    | r => (false, r)
  match parseDigitsC 0 0 signed.2 with
  | (ip, ic, l2) =>
    if ic = 0 then none
    else
      let fracRes : Option (ℕ × ℕ × List Char) :=
        match l2 with
        | '.' :: r =>
          match parseDigitsC 0 0 r with
          | (fp, fc, l3) => if fc = 0 then none else some (fp, fc, l3)
        | r => some (0, 0, r)
      match fracRes with
      | none => none
      | some (fp, fc, l3) =>
        let expRes : Option (Bool × ℕ × List Char) :=
          match l3 with
          | 'e' :: r => parseExp r
          | 'E' :: r => parseExp r
          | r => some (false, 0, r)
        match expRes with
        | none => none
        | some (eneg, ev, l4) =>
          let base : ℚ := (ip : ℚ) + (fp : ℚ) / (10:ℚ)^fc
          let mag : ℚ := if eneg then base / (10:ℚ)^ev else base * (10:ℚ)^ev
          some (.num (if signed.1 then -mag else mag), l4)

mutual

/-- A JSON value (model of `JSON.parse` on the remaining input). -/
def parseValue : ℕ → List Char → Option (Json × List Char)
  | 0, _ => none
  | fuel+1, l =>
    match skipWs l with
    | [] => none
    | 'n' :: 'u' :: 'l' :: 'l' :: rest => some (.null, rest)
    | 't' :: 'r' :: 'u' :: 'e' :: rest => some (.bool true, rest)
    | 'f' :: 'a' :: 'l' :: 's' :: 'e' :: rest => some (.bool false, rest)
    | c :: rest =>
      if c = quoteC then (parseStr [] rest).map (fun p => (.str p.1, p.2))
      else if c = lbrace then parseObjBody fuel rest
      else if c = lbrack then parseArrBody fuel rest
      else if c = '-' || c.isDigit then parseNum (c :: rest)
      else none

/-- Object body after the opening brace. -/
def parseObjBody : ℕ → List Char → Option (Json × List Char)
  | 0, _ => none
  | fuel+1, l =>
    match skipWs l with
    | [] => none
    | c :: rest =>
      if c = rbrace then some (.obj [], rest)
      else parseMembers fuel [] (c :: rest)

/-- Comma-separated members of an object body. -/
def parseMembers : ℕ → List (String × Json) → List Char → Option (Json × List Char)
  | 0, _, _ => none
  | fuel+1, acc, l =>
    match skipWs l with
    | [] => none
    | c :: rest =>
      if c = quoteC then
        match parseStr [] rest with
        | some (key, r1) =>
          match skipWs r1 with
          | ':' :: r2 =>
            match parseValue fuel r2 with
            | some (v, r3) =>
              match skipWs r3 with
              | c2 :: r4 =>
                if c2 = ',' then parseMembers fuel (acc ++ [(key, v)]) r4
                else if c2 = rbrace then some (.obj (acc ++ [(key, v)]), r4)
                else none
              | [] => none
            | none => none
          | _ => none
        | none => none
      else none

/-- Array body after the opening bracket. -/
def parseArrBody : ℕ → List Char → Option (Json × List Char)
  | 0, _ => none
  | fuel+1, l =>
    match skipWs l with
    | [] => none
    | c :: rest =>
      if c = rbrack then some (.arr [], rest)
      else parseElems fuel [] (c :: rest)

/-- Comma-separated elements of an array body. -/
def parseElems : ℕ → List Json → List Char → Option (Json × List Char)
  | 0, _, _ => none
  | fuel+1, acc, l =>
    match parseValue fuel l with
    | some (v, r1) =>
      match skipWs r1 with
      | c :: r2 =>
        if c = ',' then parseElems fuel (acc ++ [v]) r2
        else if c = rbrack then some (.arr (acc ++ [v]), r2)
        else none
      | [] => none
    | none => none

end

/-- Model of `JSON.parse` on a character list: a failure (`none`) stands for
the `SyntaxError` the platform function throws. -/
def jsonParseL (l : List Char) : Option Json :=
  match parseValue (4 * l.length + 8) l with
  | some (j, rest) => if skipWs rest = [] then some j else none
  | none => none

/-- Model of `JSON.parse` on a string. -/
def jsonParse (s : String) : Option Json := jsonParseL s.data

/-- `cleanAndParseJSON` from `src/unnamed/part_000` (lines 1448–1464): strip
fence markers, strip trailing commas before `}` / `]`, trim, slice between
the first `{` and the last `}` when both exist, then `JSON.parse`.  The
function has no catch: a `none` result models the parse exception
propagating to the caller. -/
def cleanAndParseJSON (text : String) : Option Json :=
  jsonParseL (braceSlice (trimChars
    (stripCommaClose rbrack (stripCommaClose rbrace
      (stripBareFence (stripJsonFence text.data))))))

/-! ## Retry/Backoff Controller (`callAIModel`, `src/unnamed/part_000`
lines 1273–1309) -/

/-- Outcome of one provider attempt as `callAIModel` sees it: `attempts k`
is `none` when the fetch fails, the status is non-2xx, or the extracted
content is empty (all of which `throw` inside the try), and `some raw` when
raw content is extracted; the attempt succeeds only if `cleanAndParseJSON`
then parses it. -/
def attemptOutcome (attempts : ℕ → Option String) (k : ℕ) : Option Json :=
  match attempts k with
  | none => none
  | some raw => cleanAndParseJSON raw

/-- Observable trace of one `callAIModel` execution: final value (`none` is
the `return null` fallback signal), number of provider calls made, and the
backoff delays in order. -/
structure CallTrace where
  result : Option Json
  callsMade : ℕ
  delays : List ℕ

/-- The `for (attempt = 1; attempt <= maxRetries; attempt++)` loop: on
failure before the last attempt it sleeps `1000 * attempt` ms and retries. -/
def callLoop (attempts : ℕ → Option String) (maxRetries attempt : ℕ) :
    ℕ → CallTrace
  | 0 => { result := none, callsMade := 0, delays := [] }
  | remaining+1 =>
    match attemptOutcome attempts attempt with
    | some j => { result := some j, callsMade := 1, delays := [] }
    | none =>
      if attempt < maxRetries then
        let rest := callLoop attempts maxRetries (attempt + 1) remaining
        { result := rest.result, callsMade := rest.callsMade + 1,
          delays := 1000 * attempt :: rest.delays }
      else { result := none, callsMade := 1, delays := [] }

/-- `callAIModel` with its hardcoded `maxRetries = 3`. -/
def callAIModel (attempts : ℕ → Option String) : CallTrace :=
  callLoop attempts 3 1 3

/-! ## Dispatcher arrival-order model (`Promise.all`, replicateAnalyzer.ts
lines 160–165) -/

/-- The closed set of analysis domains. -/
inductive Domain where
  | financial : Domain
  | strategic : Domain
  | market : Domain
  | risk : Domain
deriving DecidableEq

/-- The four settled domain results of one run. -/
structure DomainResults where
  financial : FinancialAnalysis
  strategic : StrategicAnalysis
  market : MarketAnalysis
  risk : RiskAnalysis
deriving DecidableEq

/-- Domain results collected so far while tasks are settling. -/
structure PartialResults where
  financial : Option FinancialAnalysis
  strategic : Option StrategicAnalysis
  market : Option MarketAnalysis
  risk : Option RiskAnalysis
deriving DecidableEq

/-- No task has settled yet. -/
def emptyPartial : PartialResults :=
  { financial := none, strategic := none, market := none, risk := none }

/-- One task settles: `Promise.all` stores each result in its own positional
slot, whatever the completion order. -/
def arriveOne (rs : DomainResults) (acc : PartialResults) (d : Domain) :
    PartialResults :=
  match d with
  | .financial => { acc with financial := some rs.financial }
  | .strategic => { acc with strategic := some rs.strategic }
  | .market => { acc with market := some rs.market }
  | .risk => { acc with risk := some rs.risk }

/-- Settle the tasks in the given completion order. -/
def settleAll (rs : DomainResults) (order : List Domain) : PartialResults :=
  order.foldl (arriveOne rs) emptyPartial

/-- Score Fusion runs only once all four slots are filled. -/
def compositeOfPartial (p : PartialResults) : Option JSNum :=
  match p.financial, p.strategic, p.market, p.risk with
  | some f, some s, some m, some r => some (calculateCompositeScore f s m r)
  | _, _, _, _ => none

/-- A domain analysis result tagged by its domain. -/
inductive DomainResult where
  | financial : FinancialAnalysis → DomainResult
  | strategic : StrategicAnalysis → DomainResult
  | market : MarketAnalysis → DomainResult
  | risk : RiskAnalysis → DomainResult
deriving DecidableEq

/-- The Fallback Generator dispatched over the domain kind. -/
def generateFallbackDomain (d : Domain) (b : BusinessRecord) : DomainResult :=
  match d with
  | .financial => .financial (generateFallbackFinancialAnalysis b)
  | .strategic => .strategic (generateFallbackStrategicAnalysis b)
  | .market => .market (generateFallbackMarketAnalysis b)
  | .risk => .risk (generateFallbackRiskAnalysis b)

/-! ## Auxiliary predicates and concrete sample inputs for the theorems -/

/-- An optional score field that respects the DomainAnalysisResult invariant:
absent, or a finite number in `[0,1]`. -/
def scoreInUnitB : Option JSNum → Bool
  | none => true
  | some (.fin q) => decide (0 ≤ q) && decide (q ≤ 1)
  | some _ => false

/-- Propositional form of `scoreInUnitB`. -/
abbrev scoreInUnit (o : Option JSNum) : Prop := scoreInUnitB o = true

/-- A run in which every provider call fails. -/
def allFailOutcomes : ProviderOutcomes :=
  { financial := none, strategic := none, market := none, risk := none,
    thesis := none, summary := none }

/-- The spec's fallback-only example: asking price 2,800,000 and
net profit 1,000,000. -/
def bizSample : BusinessRecord :=
  { business_name := ("Raleigh Services Co"), sector := ("services"),
    asking_price := 2800000, annual_revenue := 3000000,
    annual_net_profit := 1000000 }

/-- A record with zero net profit (the zero-profit edge case). -/
def bizZeroProfit : BusinessRecord :=
  { business_name := ("Zero Profit LLC"), sector := ("services"),
    asking_price := 100, annual_revenue := 50, annual_net_profit := 0 }

/-- A record differing from `bizSample` in revenue and profit. -/
def bizOther : BusinessRecord :=
  { business_name := ("Raleigh Services Co"), sector := ("services"),
    asking_price := 2800000, annual_revenue := 1000000,
    annual_net_profit := 250000 }

/-- Provider financial payload used by the composite-score counterexample:
health score 0.71. -/
def cex4f : FinancialAnalysis :=
  { financial_health_score := some (.fin (71/100)), automation_score := none,
    revenue_quality := none, profit_margins := none,
    cash_flow_predictability := none, growth_trajectory := none,
    analysis_source := none, confidence_score := none }

/-- Provider strategic payload for the composite-score counterexample. -/
def cex4s : StrategicAnalysis :=
  { strategic_value_score := some (.fin (7/10)), competitive_moat := none,
    market_position := none, scalability_potential := none,
    recommended_ownership_model := none, strategic_flags := none,
    seller_financing_likely := none, government_contracts := none,
    analysis_source := none, confidence_score := none }

/-- Provider market payload for the composite-score counterexample. -/
def cex4m : MarketAnalysis :=
  { market_size := none, market_growth_rate := some (("stable")),
    competitive_intensity := none, market_trends := none,
    analysis_source := none, confidence_score := none }

/-- Provider risk payload for the composite-score counterexample. -/
def cex4r : RiskAnalysis :=
  { overall_risk_score := some (.fin (3/10)), key_risks := none,
    resilience_factors := none, mitigation_strategies := none,
    analysis_source := none, confidence_score := none }

/-- Wrap a response text in an opening ```json fence and a closing fence,
the model-output shape the Normalizer is built for. -/
def wrapFence (s : List Char) : List Char :=
  fenceJson ++ '\n' :: (s ++ '\n' :: fenceBare)

/-- A well-formed JSON object text whose string literal contains a comma
directly followed by a closing brace — the characters of
`{"a": ",}"}`. -/
def cexJsonText : List Char :=
  [lbrace, quoteC, 'a', quoteC, ':', ' ', quoteC, ',', rbrace, quoteC, rbrace]

/-- What `JSON.parse` yields on `cexJsonText` directly. -/
def cexParsedDirect : Json := .obj [(("a"), .str (String.mk [',', rbrace]))]

/-- What the Normalizer yields on the fence-wrapped `cexJsonText`: the
comma-stripping pass has corrupted the string literal. -/
def cexParsedWrapped : Json := .obj [(("a"), .str (String.mk [rbrace]))]

/-- Interior of the clean JSON object text used by the round-trip witness:
the characters of `"a": 1`. -/
def c8mid : List Char := [quoteC, 'a', quoteC, ':', ' ', '1']

/-- The parse of `{"a": 1}`. -/
def c8obj : Json := .obj [(("a"), .num 1)]

/-- Attempt oracle that fails twice and then returns `{}`. -/
def failTwiceAttempts : ℕ → Option String :=
  fun k => if k = 3 then some (String.mk [lbrace, rbrace]) else none

/-- Domain results used by the order-independence witness. -/
def sampleDomainResults : DomainResults :=
  { financial := generateFallbackFinancialAnalysis bizSample
  , strategic := generateFallbackStrategicAnalysis bizSample
  , market := generateFallbackMarketAnalysis bizSample
  , risk := generateFallbackRiskAnalysis bizSample }

/-- `InsBefore cl s t`: `t` is obtained from `s` by inserting a comma
immediately before some occurrences of closer characters drawn from `cl`
(the claim's "trailing commas inserted before closing braces/brackets"):
any number of insertions, at any closer occurrences, final or not. -/
inductive InsBefore (cl : List Char) : List Char → List Char → Prop where
  | nil : InsBefore cl [] []
  | keep (c : Char) {s t : List Char} :
      InsBefore cl s t → InsBefore cl (c :: s) (c :: t)
  | ins (c : Char) (hc : c ∈ cl) {s t : List Char} :
      InsBefore cl s t → InsBefore cl (c :: s) (',' :: c :: t)

/-- The two JSON closer characters. -/
def closers : List Char := [rbrace, rbrack]

/-- Characters of the JSON object text whose string literal contains a fence
marker: `{"a":"` + three backticks + `x"}`. -/
def cexFenceText : List Char :=
  [lbrace, quoteC, 'a', quoteC, ':', quoteC, btick, btick, btick, 'x', quoteC, rbrace]

/-- What `JSON.parse` yields on `cexFenceText` directly. -/
def cexFenceDirect : Json :=
  .obj [(("a"), .str (String.mk [btick, btick, btick, 'x']))]

/-- What the Normalizer yields on the fence-wrapped `cexFenceText`: the
fence-removal pass has eaten the marker inside the string literal. -/
def cexFenceWrapped : Json := .obj [(("a"), .str (String.mk ['x']))]

/-- Interior of the object text `{"a": [1]}` used by the round-trip witness. -/
def c8wmid : List Char := [quoteC, 'a', quoteC, ':', ' ', lbrack, '1', rbrack]

/-- The witness text with a comma inserted before the (non-final) closing
bracket and before the final closing brace: `{"a": [1,],}`. -/
def c8wt : List Char :=
  [lbrace, quoteC, 'a', quoteC, ':', ' ', lbrack, '1', ',', rbrack, ',', rbrace]

/-- The parse of `{"a": [1]}`. -/
def c8wobj : Json := .obj [(("a"), .arr [.num 1])]

/-! ## Theorems -/

attribute [local semireducible] Rat.add Rat.mul Rat.inv Rat.sub Rat.ofScientific

/-- Bounds for decimal rounding: if `q * 10^k` lies between the integers `a`
and `b`, then `roundTo q k` lies between `a/10^k` and `b/10^k`. -/
theorem roundTo_mem (q : ℚ) (k : ℕ) (a b : ℤ)
    (h1 : ((a:ℚ)) ≤ q * (10:ℚ)^k) (h2 : q * (10:ℚ)^k ≤ ((b:ℚ))) :
    (a:ℚ) / (10:ℚ)^k ≤ roundTo q k ∧ roundTo q k ≤ (b:ℚ) / (10:ℚ)^k := by
  have hlo : (a:ℚ) ≤ (jsRound (q * (10:ℚ)^k) : ℚ) := by
    have hz : a ≤ jsRound (q * (10:ℚ)^k) := by
      unfold jsRound
      refine Int.le_floor.mpr ?_
      linarith
    exact_mod_cast hz
  have hhi : (jsRound (q * (10:ℚ)^k) : ℚ) ≤ (b:ℚ) := by
    have hb : jsRound (q * (10:ℚ)^k) ≤ b := by
      unfold jsRound
      have step : ⌊q * (10:ℚ)^k + 1/2⌋ ≤ ⌊(1:ℚ)/2 + (b:ℚ)⌋ :=
        Int.floor_le_floor (by linarith)
      have heq : ⌊(1:ℚ)/2 + (b:ℚ)⌋ = b := by
        rw [Int.floor_add_int]
        norm_num
      rw [heq] at step
      exact step
    exact_mod_cast hb
  unfold roundTo
  constructor
  · gcongr
  · gcongr

/-- C1: for every BusinessRecord and every combination of provider failures,
`runComprehensiveAnalysis` carries exactly the four domain results, each
domain's result is exactly the settled `analyzeX` value for that domain
alone (failures are absorbed locally and do not leak across domains), a
failed domain gets that domain's fallback result, and the `fallback`
provenance tag appears exactly on the failed domains.  The function is
total, so a run never aborts because a provider is degraded. -/
theorem dispatcher_produces_four_results
    (outcomes : ProviderOutcomes) (b : BusinessRecord) :
    (runComprehensiveAnalysis outcomes b).financial_analysis
        = analyzeFinancials outcomes.financial b ∧
    (runComprehensiveAnalysis outcomes b).strategic_assessment
        = analyzeStrategy outcomes.strategic b ∧
    (runComprehensiveAnalysis outcomes b).market_analysis
        = analyzeMarket outcomes.market b ∧
    (runComprehensiveAnalysis outcomes b).risk_evaluation
        = analyzeRisks outcomes.risk b ∧
    analyzeFinancials none b = generateFallbackFinancialAnalysis b ∧
    analyzeStrategy none b = generateFallbackStrategicAnalysis b ∧
    analyzeMarket none b = generateFallbackMarketAnalysis b ∧
    analyzeRisks none b = generateFallbackRiskAnalysis b ∧
    ((runComprehensiveAnalysis outcomes b).financial_analysis.analysis_source
        = some ("fallback") ↔ outcomes.financial = none) ∧
    ((runComprehensiveAnalysis outcomes b).strategic_assessment.analysis_source
        = some ("fallback") ↔ outcomes.strategic = none) ∧
    ((runComprehensiveAnalysis outcomes b).market_analysis.analysis_source
        = some ("fallback") ↔ outcomes.market = none) ∧
    ((runComprehensiveAnalysis outcomes b).risk_evaluation.analysis_source
        = some ("fallback") ↔ outcomes.risk = none) := by
  obtain ⟨f, s, m, r, t, u⟩ := outcomes
  refine ⟨rfl, rfl, rfl, rfl, rfl, rfl, rfl, rfl, ?_, ?_, ?_, ?_⟩
  · cases f <;>
      simp [runComprehensiveAnalysis, analyzeFinancials,
        generateFallbackFinancialAnalysis]
  · cases s <;>
      simp [runComprehensiveAnalysis, analyzeStrategy,
        generateFallbackStrategicAnalysis]
  · cases m <;>
      simp [runComprehensiveAnalysis, analyzeMarket,
        generateFallbackMarketAnalysis]
  · cases r <;>
      simp [runComprehensiveAnalysis, analyzeRisks,
        generateFallbackRiskAnalysis]

/-- C9: the Fallback Generator is a pure total function of domain and
record: identical inputs give identical `DomainAnalysisResult` values for
every domain of the closed set. -/
theorem fallback_generator_idempotent (d : Domain) (b b' : BusinessRecord)
    (h : b = b') :
    generateFallbackDomain d b = generateFallbackDomain d b' := by
  rw [h]

/-- Witness for C9 at a concrete domain and record. -/
theorem fallback_generator_idempotent_witness :
    generateFallbackDomain Domain.financial bizSample
      = generateFallbackDomain Domain.financial bizSample :=
  fallback_generator_idempotent Domain.financial bizSample bizSample rfl

/-- C10: the strategic, market and risk fallback generators are constant in
the BusinessRecord; every field of the financial fallback except
`profit_margins` is constant; `profit_margins` is a function of revenue and
net profit only, and genuinely varies with them. -/
theorem fallbacks_constant_except_profit_margins (b₁ b₂ : BusinessRecord) :
    generateFallbackStrategicAnalysis b₁ = generateFallbackStrategicAnalysis b₂ ∧
    generateFallbackMarketAnalysis b₁ = generateFallbackMarketAnalysis b₂ ∧
    generateFallbackRiskAnalysis b₁ = generateFallbackRiskAnalysis b₂ ∧
    (generateFallbackFinancialAnalysis b₁).financial_health_score
      = (generateFallbackFinancialAnalysis b₂).financial_health_score ∧
    (generateFallbackFinancialAnalysis b₁).automation_score
      = (generateFallbackFinancialAnalysis b₂).automation_score ∧
    (generateFallbackFinancialAnalysis b₁).revenue_quality
      = (generateFallbackFinancialAnalysis b₂).revenue_quality ∧
    (generateFallbackFinancialAnalysis b₁).cash_flow_predictability
      = (generateFallbackFinancialAnalysis b₂).cash_flow_predictability ∧
    (generateFallbackFinancialAnalysis b₁).growth_trajectory
      = (generateFallbackFinancialAnalysis b₂).growth_trajectory ∧
    (generateFallbackFinancialAnalysis b₁).analysis_source
      = (generateFallbackFinancialAnalysis b₂).analysis_source ∧
    (generateFallbackFinancialAnalysis b₁).confidence_score
      = (generateFallbackFinancialAnalysis b₂).confidence_score ∧
    (b₁.annual_revenue = b₂.annual_revenue →
      b₁.annual_net_profit = b₂.annual_net_profit →
      generateFallbackFinancialAnalysis b₁ = generateFallbackFinancialAnalysis b₂) ∧
    (generateFallbackFinancialAnalysis bizSample).profit_margins
      ≠ (generateFallbackFinancialAnalysis bizOther).profit_margins := by
  refine ⟨rfl, rfl, rfl, rfl, rfl, rfl, rfl, rfl, rfl, rfl, ?_, by decide⟩
  intro h1 h2
  simp [generateFallbackFinancialAnalysis, h1, h2]

/-- Witness for C10 at concrete records. -/
theorem fallbacks_constant_except_profit_margins_witness :
    generateFallbackStrategicAnalysis bizSample
        = generateFallbackStrategicAnalysis bizZeroProfit ∧
    generateFallbackFinancialAnalysis bizSample
        = generateFallbackFinancialAnalysis bizSample := by
  have h := fallbacks_constant_except_profit_margins bizSample bizZeroProfit
  have h' := fallbacks_constant_except_profit_margins bizSample bizSample
  exact ⟨h.1, (h'.2.2.2.2.2.2.2.2.2.2.1) rfl rfl⟩

/-- Slot lemma: after settling in any order, the financial slot holds the
financial result exactly when the financial task is in the order. -/
theorem settle_slot_financial (rs : DomainResults) (order : List Domain) :
    ∀ acc : PartialResults,
    (order.foldl (arriveOne rs) acc).financial
      = if Domain.financial ∈ order then some rs.financial else acc.financial := by
  induction order with
  | nil => intro acc; simp
  | cons d rest ih =>
    intro acc
    cases d <;> simp [arriveOne, ih, List.mem_cons]

/-- Slot lemma for the strategic slot. -/
theorem settle_slot_strategic (rs : DomainResults) (order : List Domain) :
    ∀ acc : PartialResults,
    (order.foldl (arriveOne rs) acc).strategic
      = if Domain.strategic ∈ order then some rs.strategic else acc.strategic := by
  induction order with
  | nil => intro acc; simp
  | cons d rest ih =>
    intro acc
    cases d <;> simp [arriveOne, ih, List.mem_cons]

/-- Slot lemma for the market slot. -/
theorem settle_slot_market (rs : DomainResults) (order : List Domain) :
    ∀ acc : PartialResults,
    (order.foldl (arriveOne rs) acc).market
      = if Domain.market ∈ order then some rs.market else acc.market := by
  induction order with
  | nil => intro acc; simp
  | cons d rest ih =>
    intro acc
    cases d <;> simp [arriveOne, ih, List.mem_cons]

/-- Slot lemma for the risk slot. -/
theorem settle_slot_risk (rs : DomainResults) (order : List Domain) :
    ∀ acc : PartialResults,
    (order.foldl (arriveOne rs) acc).risk
      = if Domain.risk ∈ order then some rs.risk else acc.risk := by
  induction order with
  | nil => intro acc; simp
  | cons d rest ih =>
    intro acc
    cases d <;> simp [arriveOne, ih, List.mem_cons]

/-- C6: Score Fusion is order-independent: settling the four domain tasks in
any completion order yields the same composite score, computed from the same
four results. -/
theorem score_fusion_order_independent (rs : DomainResults)
    (order : List Domain)
    (h : order.Perm [Domain.financial, Domain.strategic, Domain.market, Domain.risk]) :
    compositeOfPartial (settleAll rs order)
      = some (calculateCompositeScore rs.financial rs.strategic rs.market rs.risk) := by
  have hf : Domain.financial ∈ order := h.mem_iff.mpr (by simp)
  have hs : Domain.strategic ∈ order := h.mem_iff.mpr (by simp)
  have hm : Domain.market ∈ order := h.mem_iff.mpr (by simp)
  have hr : Domain.risk ∈ order := h.mem_iff.mpr (by simp)
  simp [settleAll, compositeOfPartial, settle_slot_financial,
    settle_slot_strategic, settle_slot_market, settle_slot_risk,
    hf, hs, hm, hr]

/-- Witness for C6: a reversed completion order gives the canonical fusion
value. -/
theorem score_fusion_order_independent_witness :
    compositeOfPartial (settleAll sampleDomainResults
      [Domain.risk, Domain.market, Domain.strategic, Domain.financial])
      = some (calculateCompositeScore sampleDomainResults.financial
          sampleDomainResults.strategic sampleDomainResults.market
          sampleDomainResults.risk) :=
  score_fusion_order_independent sampleDomainResults
    [Domain.risk, Domain.market, Domain.strategic, Domain.financial]
    (by decide)

/-- C2 counterexample: the analyzer's own `clampToDbPrecision` (the one used
at every call site of `runComprehensiveAnalysis`) propagates `NaN` instead
of returning the default `0`, and both variants clamp `+Infinity` to the
ceiling rather than mapping it to the default. -/
theorem clamp_counterexample :
    clampToDbPrecision .nan 9.9999 = .nan ∧
    clampToDbPrecision .nan 9.9999 ≠ .fin 0 ∧
    clampToDbPrecisionDoc .posInf 9.999 = .fin 9.999 ∧
    clampToDbPrecision .posInf 9.9999 = .fin 9.9999 ∧
    (9.999 : ℚ) ≠ 0 := by
  refine ⟨rfl, by decide, by decide, by decide, by norm_num⟩

/-- C2 amended: for finite inputs both clamp variants land in `[0, max]`;
`NaN` yields the hardcoded default `0` only in the part_000 variant and
propagates in the analyzer variant; `-Infinity` clamps to `0` and
`+Infinity` clamps to the ceiling (not to the default) in both. -/
theorem clamp_amended :
    (∀ q : ℚ, ∃ r : ℚ,
      clampToDbPrecision (.fin q) 9.9999 = .fin r ∧ 0 ≤ r ∧ r ≤ 9.9999) ∧
    (∀ q : ℚ, ∃ r : ℚ,
      clampToDbPrecisionDoc (.fin q) 9.999 = .fin r ∧ 0 ≤ r ∧ r ≤ 9.999) ∧
    clampToDbPrecision .nan 9.9999 = .nan ∧
    clampToDbPrecisionDoc .nan 9.999 = .fin 0 ∧
    clampToDbPrecision .posInf 9.9999 = .fin 9.9999 ∧
    clampToDbPrecision .negInf 9.9999 = .fin 0 ∧
    clampToDbPrecisionDoc .posInf 9.999 = .fin 9.999 ∧
    clampToDbPrecisionDoc .negInf 9.999 = .fin 0 := by
  refine ⟨?_, ?_, by decide, by decide, by decide, by decide, by decide, by decide⟩
  · intro q
    exact ⟨min (max 0 q) 9.9999, rfl,
      le_min (le_max_left 0 q) (by norm_num), min_le_right _ _⟩
  · intro q
    refine ⟨roundTo (min (max 0 q) 9.999) 3, ?_, ?_, ?_⟩
    · simp [clampToDbPrecisionDoc, jminc, jmax0, jToFixed]
    · have h1 : (0:ℚ) ≤ min (max 0 q) 9.999 * (10:ℚ)^3 := by
        have : (0:ℚ) ≤ min (max 0 q) 9.999 :=
          le_min (le_max_left 0 q) (by norm_num)
        positivity
      have := (roundTo_mem (min (max 0 q) 9.999) 3 0 9999
        (by exact_mod_cast h1)
        (by
          have : min (max 0 q) 9.999 ≤ 9.999 := min_le_right _ _
          push_cast
          nlinarith)).1
      simpa using this
    · have h2 : min (max 0 q) 9.999 * (10:ℚ)^3 ≤ ((9999:ℤ):ℚ) := by
        have : min (max 0 q) 9.999 ≤ 9.999 := min_le_right _ _
        push_cast
        nlinarith
      have h1 : ((0:ℤ):ℚ) ≤ min (max 0 q) 9.999 * (10:ℚ)^3 := by
        have : (0:ℚ) ≤ min (max 0 q) 9.999 :=
          le_min (le_max_left 0 q) (by norm_num)
        push_cast
        positivity
      have := (roundTo_mem (min (max 0 q) 9.999) 3 0 9999 h1 h2).2
      calc roundTo (min (max 0 q) 9.999) 3 ≤ ((9999:ℤ):ℚ) / (10:ℚ)^3 := this
        _ = 9.999 := by norm_num

/-- Helper: a `|| d` defaulted score field stays in the unit interval when
the stored score respects the data-model invariant. -/
theorem jor_unit (d : ℚ) {o : Option JSNum} (ho : scoreInUnit o)
    (hd0 : 0 ≤ d) (hd1 : d ≤ 1) :
    ∃ q : ℚ, jor o d = .fin q ∧ 0 ≤ q ∧ q ≤ 1 := by
  cases o with
  | none => exact ⟨d, rfl, hd0, hd1⟩
  | some v =>
    cases v with
    | nan => exact ⟨d, rfl, hd0, hd1⟩
    | posInf => simp [scoreInUnit, scoreInUnitB] at ho
    | negInf => simp [scoreInUnit, scoreInUnitB] at ho
    | fin q =>
      have hq : 0 ≤ q ∧ q ≤ 1 := by
        simpa [scoreInUnit, scoreInUnitB] using ho
      by_cases h0 : q = 0
      · exact ⟨d, by simp [jor, h0], hd0, hd1⟩
      · exact ⟨q, by simp [jor, h0], hq.1, hq.2⟩

/-- Helper: the market-growth keyword score is always in the unit interval. -/
theorem marketScoreOf_mem (g : Option String) :
    0 ≤ marketScoreOf g ∧ marketScoreOf g ≤ 1 := by
  unfold marketScoreOf
  split_ifs <;> norm_num

/-- Helper: with defaulted finite scores, `calculateCompositeScore` is the
weighted sum rounded to two decimal digits. -/
theorem calculateCompositeScore_fin (f : FinancialAnalysis)
    (s : StrategicAnalysis) (m : MarketAnalysis) (r : RiskAnalysis)
    (qf qs qr : ℚ)
    (hf : jor f.financial_health_score 0.7 = .fin qf)
    (hs : jor s.strategic_value_score 0.7 = .fin qs)
    (hr : jor r.overall_risk_score 0.3 = .fin qr) :
    calculateCompositeScore f s m r
      = .fin (roundTo (qf * 0.3 + qs * 0.3
          + marketScoreOf m.market_growth_rate * 0.2 + (1 - qr) * 0.2) 2) := by
  simp [calculateCompositeScore, hf, hs, hr, jmulc, jOneSub, jadd, jToFixed]

/-- C5: whenever the three stored numeric domain scores respect the
data-model invariant (absent or finite in `[0,1]`), the composite score
carried by the assessment is a finite value in `[0,1]`. -/
theorem composite_score_in_unit_interval (f : FinancialAnalysis)
    (s : StrategicAnalysis) (m : MarketAnalysis) (r : RiskAnalysis)
    (hf : scoreInUnit f.financial_health_score)
    (hs : scoreInUnit s.strategic_value_score)
    (hr : scoreInUnit r.overall_risk_score) :
    ∃ q : ℚ,
      clampToDbPrecision (calculateCompositeScore f s m r) 9.9999 = .fin q ∧
      0 ≤ q ∧ q ≤ 1 := by
  obtain ⟨qf, hf1, hf2, hf3⟩ := jor_unit 0.7 hf (by norm_num) (by norm_num)
  obtain ⟨qs, hs1, hs2, hs3⟩ := jor_unit 0.7 hs (by norm_num) (by norm_num)
  obtain ⟨qr, hr1, hr2, hr3⟩ := jor_unit 0.3 hr (by norm_num) (by norm_num)
  obtain ⟨hm0, hm1⟩ := marketScoreOf_mem m.market_growth_rate
  have hcalc := calculateCompositeScore_fin f s m r qf qs qr hf1 hs1 hr1
  set S : ℚ := qf * 0.3 + qs * 0.3
      + marketScoreOf m.market_growth_rate * 0.2 + (1 - qr) * 0.2 with hSdef
  have hS0 : (0:ℚ) ≤ S := by rw [hSdef]; nlinarith
  have hS1 : S ≤ 1 := by rw [hSdef]; nlinarith
  obtain ⟨hb1, hb2⟩ := roundTo_mem S 2 0 100
    (by push_cast; nlinarith) (by push_cast; nlinarith)
  have h0 : (0:ℚ) ≤ roundTo S 2 := by
    calc (0:ℚ) = ((0:ℤ):ℚ) / (10:ℚ)^2 := by norm_num
    _ ≤ roundTo S 2 := hb1
  have h1 : roundTo S 2 ≤ 1 := by
    calc roundTo S 2 ≤ ((100:ℤ):ℚ) / (10:ℚ)^2 := hb2
    _ = 1 := by norm_num
  have hmax : max 0 (roundTo S 2) = roundTo S 2 := max_eq_right h0
  have hmin : min (roundTo S 2) 9.9999 = roundTo S 2 := min_eq_left (by nlinarith)
  exact ⟨roundTo S 2,
    by rw [hcalc]; simp [clampToDbPrecision, jmax0, jminc, hmax, hmin], h0, h1⟩

/-- Witness for C5 at concrete provider payloads. -/
theorem composite_score_in_unit_interval_witness :
    ∃ q : ℚ,
      clampToDbPrecision (calculateCompositeScore cex4f cex4s cex4m cex4r) 9.9999
        = .fin q ∧ 0 ≤ q ∧ q ≤ 1 :=
  composite_score_in_unit_interval cex4f cex4s cex4m cex4r
    (by decide) (by decide) (by decide)

/-- C4 counterexample: on concrete domain results the persisted composite is
the weighted sum rounded to TWO decimal digits (0.66), which differs from
the same sum rounded to the 3-decimal storage precision (0.663); the
rounding also does not happen in the precision clamp, which only min/maxes. -/
theorem composite_not_three_decimal :
    clampToDbPrecision (calculateCompositeScore cex4f cex4s cex4m cex4r) 9.9999
      = .fin (33/50) ∧
    roundTo (71/100 * 0.3 + 7/10 * 0.3 + 5/10 * 0.2 + (1 - 3/10) * 0.2) 3
      = 663/1000 ∧
    (33/50 : ℚ) ≠ 663/1000 := by
  refine ⟨by decide, by decide, by norm_num⟩

/-- C4 amended: for finite in-range nonzero scores, the composite equals the
fixed convex weighted sum (financial 0.3, strategic 0.3, market 0.2, risk
inverted 0.2) rounded to TWO decimal digits inside Score Fusion; the
precision clamp applied afterwards is the identity on that value (it does
not round to the 3-decimal storage precision). -/
theorem composite_two_decimal_amended (f : FinancialAnalysis)
    (s : StrategicAnalysis) (m : MarketAnalysis) (r : RiskAnalysis)
    (qf qs qr : ℚ)
    (hf : f.financial_health_score = some (.fin qf))
    (hs : s.strategic_value_score = some (.fin qs))
    (hr : r.overall_risk_score = some (.fin qr))
    (hqf0 : 0 < qf) (hqf1 : qf ≤ 1)
    (hqs0 : 0 < qs) (hqs1 : qs ≤ 1)
    (hqr0 : 0 < qr) (hqr1 : qr ≤ 1) :
    clampToDbPrecision (calculateCompositeScore f s m r) 9.9999
      = .fin (roundTo (qf * 0.3 + qs * 0.3
          + marketScoreOf m.market_growth_rate * 0.2 + (1 - qr) * 0.2) 2) := by
  have hf' : jor f.financial_health_score 0.7 = .fin qf := by
    simp [jor, hf, ne_of_gt hqf0]
  have hs' : jor s.strategic_value_score 0.7 = .fin qs := by
    simp [jor, hs, ne_of_gt hqs0]
  have hr' : jor r.overall_risk_score 0.3 = .fin qr := by
    simp [jor, hr, ne_of_gt hqr0]
  have hcalc := calculateCompositeScore_fin f s m r qf qs qr hf' hs' hr'
  obtain ⟨hm0, hm1⟩ := marketScoreOf_mem m.market_growth_rate
  set S : ℚ := qf * 0.3 + qs * 0.3
      + marketScoreOf m.market_growth_rate * 0.2 + (1 - qr) * 0.2 with hSdef
  obtain ⟨hb1, hb2⟩ := roundTo_mem S 2 0 100
    (by push_cast; rw [hSdef]; nlinarith) (by push_cast; rw [hSdef]; nlinarith)
  have h0 : (0:ℚ) ≤ roundTo S 2 := by
    calc (0:ℚ) = ((0:ℤ):ℚ) / (10:ℚ)^2 := by norm_num
    _ ≤ roundTo S 2 := hb1
  have h1 : roundTo S 2 ≤ 1 := by
    calc roundTo S 2 ≤ ((100:ℤ):ℚ) / (10:ℚ)^2 := hb2
    _ = 1 := by norm_num
  have hmax : max 0 (roundTo S 2) = roundTo S 2 := max_eq_right h0
  have hmin : min (roundTo S 2) 9.9999 = roundTo S 2 := min_eq_left (by nlinarith)
  rw [hcalc]
  simp [clampToDbPrecision, jmax0, jminc, hmax, hmin]

/-- Witness for C4 (amended) at concrete payloads. -/
theorem composite_two_decimal_amended_witness :
    clampToDbPrecision (calculateCompositeScore cex4f cex4s cex4m cex4r) 9.9999
      = .fin (roundTo (71/100 * 0.3 + 7/10 * 0.3
          + marketScoreOf cex4m.market_growth_rate * 0.2 + (1 - 3/10) * 0.2) 2) :=
  composite_two_decimal_amended cex4f cex4s cex4m cex4r (71/100) (7/10) (3/10)
    rfl rfl rfl (by norm_num) (by norm_num) (by norm_num) (by norm_num)
    (by norm_num) (by norm_num)

/-- C3 counterexample: with zero net profit the persisted payback is
`Infinity` (never equal to any finite sentinel), and on the spec's own
fallback-only example the persisted capitalization rate is the percentage
35.7, not the ratio net profit ÷ asking price (5/14 ≈ 0.357); the payback is
2.8 with no 99 cap applied anywhere. -/
theorem derived_ratios_counterexample :
    (runComprehensiveAnalysis allFailOutcomes bizZeroProfit).payback_years
      = .posInf ∧
    (∀ q : ℚ, (runComprehensiveAnalysis allFailOutcomes bizZeroProfit).payback_years
      ≠ .fin q) ∧
    (runComprehensiveAnalysis allFailOutcomes bizSample).cap_rate
      = .fin (357/10) ∧
    bizSample.annual_net_profit / bizSample.asking_price = 5/14 ∧
    (357/10 : ℚ) ≠ 5/14 ∧
    (runComprehensiveAnalysis allFailOutcomes bizSample).payback_years
      = .fin (14/5) := by
  have h1 : (runComprehensiveAnalysis allFailOutcomes bizZeroProfit).payback_years
      = .posInf := by decide
  refine ⟨h1, ?_, by decide, by norm_num [bizSample], by norm_num, by decide⟩
  intro q h
  rw [h1] at h
  exact JSNum.noConfusion h

/-- C3 amended: the persisted ratios are
`cap_rate = (net profit ÷ asking price) × 100` and
`payback_years = asking price ÷ net profit`, each rounded to one decimal
digit and NOT capped at any sentinel; with positive asking price and zero
net profit the payback is `Infinity` (JS division), not a sentinel. -/
theorem derived_ratios_amended (o : ProviderOutcomes) (b : BusinessRecord)
    (hask : 0 < b.asking_price) :
    (0 < b.annual_net_profit →
      (runComprehensiveAnalysis o b).cap_rate
        = .fin (roundTo (b.annual_net_profit / b.asking_price * 100) 1) ∧
      (runComprehensiveAnalysis o b).payback_years
        = .fin (roundTo (b.asking_price / b.annual_net_profit) 1)) ∧
    (b.annual_net_profit = 0 →
      (runComprehensiveAnalysis o b).payback_years = .posInf) := by
  constructor
  · intro hnet
    constructor
    · simp [runComprehensiveAnalysis, jdiv, ne_of_gt hask, jmulc, jToFixed]
    · simp [runComprehensiveAnalysis, jdiv, ne_of_gt hnet, jToFixed]
  · intro hz
    simp [runComprehensiveAnalysis, jdiv, hz, ne_of_gt hask, hask, jToFixed]

/-- Witness for C3 (amended) at the spec's fallback-only example. -/
theorem derived_ratios_amended_witness :
    (runComprehensiveAnalysis allFailOutcomes bizSample).cap_rate
      = .fin (roundTo (bizSample.annual_net_profit / bizSample.asking_price * 100) 1) ∧
    (runComprehensiveAnalysis allFailOutcomes bizSample).payback_years
      = .fin (roundTo (bizSample.asking_price / bizSample.annual_net_profit) 1) :=
  (derived_ratios_amended allFailOutcomes bizSample
    (by norm_num [bizSample])).1 (by norm_num [bizSample])

/-- C7: a provider call failing on the first two attempts and succeeding on
the third yields the provider-parsed result (not the `null` fallback
signal), makes exactly three calls, backs off `1000·k` ms before retry
`k+1` with strictly increasing delays, and no execution ever makes more
than `maxRetries = 3` provider calls. -/
theorem callAIModel_retry (attempts : ℕ → Option String) (j : Json)
    (h1 : attemptOutcome attempts 1 = none)
    (h2 : attemptOutcome attempts 2 = none)
    (h3 : attemptOutcome attempts 3 = some j) :
    (callAIModel attempts).result = some j ∧
    (callAIModel attempts).callsMade = 3 ∧
    (callAIModel attempts).delays = [1000 * 1, 1000 * 2] ∧
    List.Chain' (fun a b => a < b) (callAIModel attempts).delays ∧
    (∀ att : ℕ → Option String, (callAIModel att).callsMade ≤ 3) := by
  have hrun : callAIModel attempts
      = { result := some j, callsMade := 3, delays := [1000 * 1, 1000 * 2] } := by
    simp [callAIModel, callLoop, h1, h2, h3]
  refine ⟨by rw [hrun], by rw [hrun], by rw [hrun], ?_, ?_⟩
  · rw [hrun]
    simp [List.chain'_cons]
  · intro att
    rcases ha1 : attemptOutcome att 1 with _ | j1 <;>
      rcases ha2 : attemptOutcome att 2 with _ | j2 <;>
        rcases ha3 : attemptOutcome att 3 with _ | j3 <;>
          simp [callAIModel, callLoop, ha1, ha2, ha3]

/-- Witness for C7 with a concrete oracle failing twice then returning `{}`. -/
theorem callAIModel_retry_witness :
    (callAIModel failTwiceAttempts).result = some (Json.obj []) ∧
    (callAIModel failTwiceAttempts).callsMade = 3 := by
  have h := callAIModel_retry failTwiceAttempts (Json.obj []) rfl rfl rfl
  exact ⟨h.1, h.2.1⟩

/-- Helper: a pattern starting with a different character is not a prefix. -/
theorem isPrefixOf_cons_false (c0 c : Char) (pt l : List Char) (h : c0 ≠ c) :
    (c0 :: pt).isPrefixOf (c :: l) = false := by
  simp [List.isPrefixOf]
  intro h'
  exact absurd h' h

/-- Helper: extending the scanned text cannot create a prefix match when the
pattern already mismatches and the first appended character is outside the
pattern. -/
theorem isPrefixOf_ext_false :
    ∀ (pat : List Char) (c : Char), c ∉ pat → ∀ (r l : List Char),
      pat.isPrefixOf l = false → pat.isPrefixOf (l ++ c :: r) = false := by
  intro pat
  induction pat with
  | nil => intro c _ r l h; simp [List.isPrefixOf] at h
  | cons p ps ih =>
    intro c hc r l h
    cases l with
    | nil =>
      have hpc : p ≠ c := fun he => hc (by simp [he])
      exact isPrefixOf_cons_false p c ps r hpc
    | cons a l' =>
      by_cases hpa : p = a
      · subst hpa
        have h' : ps.isPrefixOf l' = false := by
          simpa [List.isPrefixOf] using h
        have hc' : c ∉ ps := fun hm => hc (by simp [hm])
        simpa [List.isPrefixOf] using ih c hc' r l' h'
      · exact isPrefixOf_cons_false p a ps (l' ++ c :: r) hpa

/-- Helper: appending text that starts with a character outside the pattern
and is itself run-free preserves run-freeness. -/
theorem containsSeq_append_safe (pat : List Char) (c : Char) (r : List Char)
    (hc : c ∉ pat) (hr : containsSeq pat (c :: r) = false) :
    ∀ l, containsSeq pat l = false → containsSeq pat (l ++ c :: r) = false := by
  intro l
  induction l with
  | nil => intro _; simpa using hr
  | cons a l' ih =>
    intro h
    simp only [containsSeq, Bool.or_eq_false_iff] at h
    simp only [List.cons_append, containsSeq, Bool.or_eq_false_iff]
    constructor
    · have hx := isPrefixOf_ext_false pat c hc r (a :: l') h.1
      simpa using hx
    · exact ih h.2

/-- Helper: a fence-marker prefix yields a bare-fence prefix. -/
theorem fenceBare_isPrefixOf_of_fenceJson :
    ∀ l, fenceJson.isPrefixOf l = true → fenceBare.isPrefixOf l = true := by
  intro l h
  match l with
  | [] => simp [fenceJson, List.isPrefixOf] at h
  | [a] => simp [fenceJson, List.isPrefixOf] at h
  | [a, b] => simp [fenceJson, List.isPrefixOf] at h
  | a :: b :: c :: rest =>
    simp [fenceJson, List.isPrefixOf] at h
    obtain ⟨h1, h2, h3, _⟩ := h
    simp [fenceBare, List.isPrefixOf, ← h1, ← h2, ← h3]

/-- Helper: text with no bare-fence run has no json-fence run either. -/
theorem containsSeq_fenceJson_of_fenceBare :
    ∀ l, containsSeq fenceBare l = false → containsSeq fenceJson l = false := by
  intro l
  induction l with
  | nil => intro _; rfl
  | cons a l' ih =>
    intro h
    simp only [containsSeq, Bool.or_eq_false_iff] at h
    have h1 : fenceJson.isPrefixOf (a :: l') = false := by
      cases hj : fenceJson.isPrefixOf (a :: l') with
      | false => rfl
      | true =>
        exact absurd (fenceBare_isPrefixOf_of_fenceJson _ hj) (by simp [h.1])
    simp [containsSeq, h1, ih h.2]

/-- Helper: the fence-removal pass is the identity when the pattern does not
occur. -/
theorem stripFenceF_eq_self (pat : List Char) :
    ∀ l : List Char, containsSeq pat l = false → ∀ fuel, stripFenceF pat fuel l = l := by
  intro l
  induction l with
  | nil =>
    intro _ fuel
    cases fuel <;> rfl
  | cons c cs ih =>
    intro h fuel
    simp only [containsSeq, Bool.or_eq_false_iff] at h
    cases fuel with
    | zero => rfl
    | succ n => simp [stripFenceF, h.1, ih h.2 n]

/-- Helper: one step of the fence pass consumes a leading fence marker plus
its newline. -/
theorem stripFenceF_step_wrapped (r : List Char) :
    ∀ fuel, stripFenceF fenceJson (fuel + 1) (fenceJson ++ '\n' :: r)
      = stripFenceF fenceJson fuel r := by
  intro fuel
  simp [stripFenceF, fenceJson, List.isPrefixOf, dropNl]

/-- Helper: the opening fence of a wrapped response is removed and the rest
is untouched when the marker does not reoccur. -/
theorem stripJsonFence_wrapped (r : List Char)
    (hr : containsSeq fenceJson r = false) :
    stripJsonFence (fenceJson ++ '\n' :: r) = r := by
  have hlen : (fenceJson ++ '\n' :: r).length = r.length + 7 + 1 := by
    simp [fenceJson]
  calc stripJsonFence (fenceJson ++ '\n' :: r)
      = stripFenceF fenceJson ((fenceJson ++ '\n' :: r).length)
          (fenceJson ++ '\n' :: r) := rfl
    _ = stripFenceF fenceJson (r.length + 7 + 1) (fenceJson ++ '\n' :: r) := by
        rw [hlen]
    _ = stripFenceF fenceJson (r.length + 7) r := stripFenceF_step_wrapped r _
    _ = r := stripFenceF_eq_self fenceJson r hr _

/-- Helper: the bare-fence pass removes the closing fence and keeps a
payload that contains no bare-fence run. -/
theorem stripFenceF_bare_aux :
    ∀ (s' : List Char), containsSeq fenceBare s' = false →
      ∀ fuel, s'.length + 4 ≤ fuel →
      stripFenceF fenceBare fuel (s' ++ '\n' :: fenceBare) = s' ++ ['\n'] := by
  intro s'
  induction s' with
  | nil =>
    intro _ fuel hfuel
    obtain ⟨f, rfl⟩ : ∃ f, fuel = f + 4 := ⟨fuel - 4, by omega⟩
    show stripFenceF fenceBare (f + 4) ('\n' :: fenceBare) = ['\n']
    have h1 : stripFenceF fenceBare (f + 4) ('\n' :: fenceBare)
        = '\n' :: stripFenceF fenceBare (f + 3) fenceBare := by
      simp [stripFenceF, fenceBare, List.isPrefixOf]
    have h2 : stripFenceF fenceBare (f + 3) fenceBare
        = stripFenceF fenceBare (f + 2) [] := by
      simp [stripFenceF, fenceBare, List.isPrefixOf, dropNl]
    have h3 : stripFenceF fenceBare (f + 2) ([] : List Char) = [] := by
      simp [stripFenceF]
    rw [h1, h2, h3]
  | cons c cs ih =>
    intro h fuel hfuel
    simp only [containsSeq, Bool.or_eq_false_iff] at h
    obtain ⟨f, rfl⟩ : ∃ f, fuel = f + 1 := ⟨fuel - 1, by omega⟩
    have hpre : fenceBare.isPrefixOf ((c :: cs) ++ '\n' :: fenceBare) = false :=
      isPrefixOf_ext_false fenceBare '\n' (by decide) fenceBare (c :: cs) h.1
    have hlen' : cs.length + 4 ≤ f := by
      simp [List.length_cons] at hfuel
      omega
    simp only [List.cons_append] at hpre ⊢
    simp [stripFenceF, hpre, ih h.2 f hlen']

/-- Helper: wrapper form of `stripFenceF_bare_aux`. -/
theorem stripBareFence_tail (s' : List Char)
    (h : containsSeq fenceBare s' = false) :
    stripBareFence (s' ++ '\n' :: fenceBare) = s' ++ ['\n'] := by
  have hlen : (s' ++ '\n' :: fenceBare).length = s'.length + 4 := by
    simp [fenceBare]
  calc stripBareFence (s' ++ '\n' :: fenceBare)
      = stripFenceF fenceBare ((s' ++ '\n' :: fenceBare).length)
          (s' ++ '\n' :: fenceBare) := rfl
    _ = s' ++ ['\n'] := by
        rw [hlen]
        exact stripFenceF_bare_aux s' h (s'.length + 4) le_rfl

/-- Helper: a failed comma-closer lookahead still fails after appending a
newline (when the closer is not whitespace). -/
theorem commaCloseLook_none_append_nl (close : Char) (hws : wsCharB close = false) :
    ∀ t : List Char, commaCloseLook close t = none →
      commaCloseLook close (t ++ ['\n']) = none := by
  intro t
  induction t with
  | nil =>
    intro _
    have hne : ('\n' = close) = False := by
      simp
      intro he
      rw [← he] at hws
      simp [wsCharB] at hws
    simp [commaCloseLook, hne, wsCharB]
  | cons c cs ih =>
    intro h
    by_cases hc : c = close
    · simp [commaCloseLook, hc] at h
    · by_cases hw : wsCharB c = true
      · simp [commaCloseLook, hc, hw] at h ⊢
        exact ih h
      · simp [commaCloseLook, hc, hw] at h ⊢

/-- Helper: appending a newline cannot create a comma-closer match. -/
theorem hasCommaClose_append_nl (close : Char) (hws : wsCharB close = false) :
    ∀ l : List Char, hasCommaClose close l = false →
      hasCommaClose close (l ++ ['\n']) = false := by
  intro l
  induction l with
  | nil =>
    intro _
    simp [hasCommaClose, commaCloseLook]
  | cons c cs ih =>
    intro h
    simp only [hasCommaClose, Bool.or_eq_false_iff] at h ⊢
    refine ⟨?_, ih h.2⟩
    by_cases hc : c = ','
    · simp [hc] at h ⊢
      have h1 : commaCloseLook close cs = none := by
        cases hlook : commaCloseLook close cs with
        | none => rfl
        | some t' => simp [hlook] at h
      simp [commaCloseLook_none_append_nl close hws cs h1]
    · simp [hc]

/-- Every list relates to itself: zero insertions. -/
theorem InsBefore.refl (cl : List Char) : ∀ l, InsBefore cl l l := by
  intro l
  induction l with
  | nil => exact .nil
  | cons c cs ih => exact .keep c ih

/-- Insertion relations concatenate. -/
theorem InsBefore.append (cl : List Char) {s t s' t' : List Char}
    (h : InsBefore cl s t) (h' : InsBefore cl s' t') :
    InsBefore cl (s ++ s') (t ++ t') := by
  induction h with
  | nil => simpa using h'
  | keep c _ ih => exact .keep c ih
  | ins c hc _ ih => exact .ins c hc ih

/-- With no closers allowed, the relation is equality. -/
theorem InsBefore.eq_of_nil_closers {s t : List Char}
    (h : InsBefore [] s t) : t = s := by
  induction h with
  | nil => rfl
  | keep c _ ih => rw [ih]
  | ins c hc => exact absurd hc (by simp)

/-- Helper: comma insertion cannot create a leading backtick. -/
theorem insBefore_pre1 (cl : List Char) {s t : List Char}
    (h : InsBefore cl s t) :
    [btick].isPrefixOf s = false → [btick].isPrefixOf t = false := by
  induction h with
  | nil => intro h0; exact h0
  | keep c hrel ih =>
    intro h0
    by_cases hbc : btick = c
    · exact absurd h0 (by simp [List.isPrefixOf, ← hbc])
    · exact isPrefixOf_cons_false btick c [] _ hbc
  | ins c hc hrel ih =>
    intro _
    exact isPrefixOf_cons_false btick ',' [] _ (by decide)

/-- Helper: comma insertion cannot create a leading double backtick. -/
theorem insBefore_pre2 (cl : List Char) {s t : List Char}
    (h : InsBefore cl s t) :
    [btick, btick].isPrefixOf s = false → [btick, btick].isPrefixOf t = false := by
  induction h with
  | nil => intro h0; exact h0
  | keep c hrel ih =>
    rename_i s0 t0
    intro h0
    by_cases hbc : btick = c
    · have h0' : [btick].isPrefixOf s0 = false := by
        simpa [List.isPrefixOf, ← hbc] using h0
      have ht := insBefore_pre1 cl hrel h0'
      simpa [List.isPrefixOf, ← hbc] using ht
    · exact isPrefixOf_cons_false btick c [btick] _ hbc
  | ins c hc hrel ih =>
    intro _
    exact isPrefixOf_cons_false btick ',' [btick] _ (by decide)

/-- Helper: comma insertion cannot create a leading bare fence. -/
theorem insBefore_pre3 (cl : List Char) {s t : List Char}
    (h : InsBefore cl s t) :
    fenceBare.isPrefixOf s = false → fenceBare.isPrefixOf t = false := by
  induction h with
  | nil => intro h0; exact h0
  | keep c hrel ih =>
    rename_i s0 t0
    intro h0
    by_cases hbc : btick = c
    · have h0' : [btick, btick].isPrefixOf s0 = false := by
        simpa [fenceBare, List.isPrefixOf, ← hbc] using h0
      have ht := insBefore_pre2 cl hrel h0'
      simpa [fenceBare, List.isPrefixOf, ← hbc] using ht
    · exact isPrefixOf_cons_false btick c [btick, btick] _ hbc
  | ins c hc hrel ih =>
    intro _
    exact isPrefixOf_cons_false btick ',' [btick, btick] _ (by decide)

/-- Helper: comma insertion before closers cannot create a bare-fence run. -/
theorem insBefore_no_fenceBare (cl : List Char)
    (hcl : ∀ c ∈ cl, c = rbrace ∨ c = rbrack) {s t : List Char}
    (h : InsBefore cl s t) :
    containsSeq fenceBare s = false → containsSeq fenceBare t = false := by
  induction h with
  | nil => intro h0; exact h0
  | keep c hrel ih =>
    intro h0
    simp only [containsSeq, Bool.or_eq_false_iff] at h0 ⊢
    exact ⟨insBefore_pre3 cl (InsBefore.keep c hrel) h0.1, ih h0.2⟩
  | ins c hc hrel ih =>
    intro h0
    simp only [containsSeq, Bool.or_eq_false_iff] at h0 ⊢
    have hcb : btick ≠ c := by rcases hcl c hc with rfl | rfl <;> decide
    exact ⟨isPrefixOf_cons_false btick ',' [btick, btick] _ (by decide),
      isPrefixOf_cons_false btick c [btick, btick] _ hcb, ih h0.2⟩

/-- Helper: a failed comma-closer lookahead on the clean text still fails on
the comma-inserted text. -/
theorem commaCloseLook_none_transfer (close : Char)
    (hclose : close = rbrace ∨ close = rbrack)
    (cl : List Char) (_hcl : ∀ c ∈ cl, c = rbrace ∨ c = rbrack)
    {s t : List Char} (h : InsBefore cl s t) :
    commaCloseLook close s = none → commaCloseLook close t = none := by
  induction h with
  | nil => intro _; rfl
  | keep c hrel ih =>
    intro h0
    by_cases hc : c = close
    · simp [commaCloseLook, hc] at h0
    · by_cases hw : wsCharB c = true
      · simp [commaCloseLook, hc, hw] at h0 ⊢
        exact ih h0
      · simp [commaCloseLook, hc, hw]
  | ins c hc hrel ih =>
    intro _
    have h1 : ¬ (',' : Char) = close := by rcases hclose with rfl | rfl <;> decide
    have h2 : wsCharB ',' = false := by decide
    simp [commaCloseLook, h1, h2]

/-- Helper: one comma-closer pass removes exactly the commas inserted before
its own closer and leaves the others as insertions before the remaining
closers. -/
theorem stripCommaCloseF_removes (close : Char)
    (hclose : close = rbrace ∨ close = rbrack)
    (cl cl' : List Char)
    (hcl : ∀ c ∈ cl, c = rbrace ∨ c = rbrack)
    (hsplit : ∀ c ∈ cl, c = close ∨ c ∈ cl')
    {s t : List Char} (h : InsBefore cl s t) :
    ∀ fuel, hasCommaClose close s = false → t.length ≤ fuel →
    ∃ t', stripCommaCloseF close fuel t = t' ∧ InsBefore cl' s t' := by
  induction h with
  | nil =>
    intro fuel _ _
    refine ⟨[], ?_, .nil⟩
    cases fuel <;> rfl
  | keep c hrel ih =>
    rename_i s0 t0
    intro fuel hhas hlen
    simp only [hasCommaClose, Bool.or_eq_false_iff] at hhas
    obtain ⟨f, rfl⟩ : ∃ f, fuel = f + 1 := ⟨fuel - 1, by simp at hlen; omega⟩
    by_cases hc : c = ','
    · subst hc
      have hlook_s : commaCloseLook close s0 = none := by
        have h1 := hhas.1
        simp at h1
        cases hlv : commaCloseLook close s0 with
        | none => rfl
        | some x => rw [hlv] at h1; simp at h1
      have hlook_t : commaCloseLook close t0 = none :=
        commaCloseLook_none_transfer close hclose cl hcl hrel hlook_s
      obtain ⟨t', he, hrel'⟩ := ih f hhas.2 (by simp at hlen; omega)
      refine ⟨',' :: t', ?_, .keep ',' hrel'⟩
      simp [stripCommaCloseF, hlook_t, he]
    · obtain ⟨t', he, hrel'⟩ := ih f hhas.2 (by simp at hlen; omega)
      refine ⟨c :: t', ?_, .keep c hrel'⟩
      simp [stripCommaCloseF, hc, he]
  | ins c hc hrel ih =>
    rename_i s0 t0
    intro fuel hhas hlen
    simp only [hasCommaClose, Bool.or_eq_false_iff] at hhas
    have hcrb : c = rbrace ∨ c = rbrack := hcl c hc
    have hcomma : c ≠ ',' := by rcases hcrb with rfl | rfl <;> decide
    obtain ⟨f, rfl⟩ : ∃ f, fuel = f + 1 := ⟨fuel - 1, by simp at hlen; omega⟩
    by_cases hcc : c = close
    · subst hcc
      have hlook : commaCloseLook c (c :: t0) = some t0 := by
        simp [commaCloseLook]
      obtain ⟨t', he, hrel'⟩ := ih f hhas.2 (by simp at hlen; omega)
      refine ⟨c :: t', ?_, .keep c hrel'⟩
      simp [stripCommaCloseF, hlook, he]
    · have hc' : c ∈ cl' := (hsplit c hc).resolve_left hcc
      have hwsc : wsCharB c = false := by rcases hcrb with rfl | rfl <;> decide
      have hlook : commaCloseLook close (c :: t0) = none := by
        simp [commaCloseLook, hcc, hwsc]
      obtain ⟨g, rfl⟩ : ∃ g, f = g + 1 := ⟨f - 1, by simp at hlen; omega⟩
      obtain ⟨t', he, hrel'⟩ := ih g hhas.2 (by simp at hlen; omega)
      refine ⟨',' :: c :: t', ?_, .ins c hc' hrel'⟩
      simp [stripCommaCloseF, hlook, hcomma, he]

/-- Helper: trimming a braced object text with a trailing newline yields the
object text. -/
theorem trimChars_object_nl (mid : List Char) :
    trimChars ((lbrace :: mid ++ [rbrace]) ++ ['\n']) = lbrace :: mid ++ [rbrace] := by
  have h1 : wsCharB lbrace = false := by decide
  have h2 : wsCharB rbrace = false := by decide
  have h3 : wsCharB '\n' = true := by decide
  unfold trimChars
  simp [List.dropWhile_cons, h1, h2, h3, List.reverse_append, List.dropWhile_append]

/-- Helper: a braced object text is already trimmed. -/
theorem trimChars_object (mid : List Char) :
    trimChars (lbrace :: mid ++ [rbrace]) = lbrace :: mid ++ [rbrace] := by
  have h1 : wsCharB lbrace = false := by decide
  have h2 : wsCharB rbrace = false := by decide
  unfold trimChars
  simp [List.dropWhile_cons, h1, h2, List.reverse_append]

/-- Helper: the brace-boundary slice is the identity on a braced object
text. -/
theorem braceSlice_object (mid : List Char) :
    braceSlice (lbrace :: mid ++ [rbrace]) = lbrace :: mid ++ [rbrace] := by
  unfold braceSlice
  have hmem1 : lbrace ∈ lbrace :: mid ++ [rbrace] := by simp
  have hmem2 : rbrace ∈ lbrace :: mid ++ [rbrace] := by simp
  rw [if_pos ⟨hmem1, hmem2⟩]
  have hidx : (lbrace :: mid ++ [rbrace]).indexOf lbrace = 0 :=
    List.indexOf_cons_self lbrace (mid ++ [rbrace])
  have hrevform : (lbrace :: mid ++ [rbrace]).reverse
      = rbrace :: (mid.reverse ++ [lbrace]) := by
    simp
  have hrev : (lbrace :: mid ++ [rbrace]).reverse.indexOf rbrace = 0 := by
    rw [hrevform]
    exact List.indexOf_cons_self rbrace (mid.reverse ++ [lbrace])
  rw [hidx, hrev]
  have hlen : (lbrace :: mid ++ [rbrace]).length = mid.length + 2 := by simp
  rw [hlen]
  have harith : mid.length + 2 - 1 - 0 + 1 = mid.length + 2 := by omega
  simp only [harith, List.drop_zero]
  rw [← hlen]
  exact List.take_length _

/-- C8 counterexample: the global rewrites corrupt string literals.  On
`{"a": ",}"}` (string literal holding a comma before a closing brace) the
fence-wrapped round trip yields `{"a": "}"}` instead of the original object,
and on a string literal holding a fence marker (three backticks) the
fence-removal pass eats the marker, so the wrapped round trip of
`{"a":"` + fence + `x"}` yields `{"a":"x"}`. -/
theorem normalizer_counterexample :
    cleanAndParseJSON (String.mk (wrapFence cexJsonText)) = some cexParsedWrapped ∧
    jsonParseL cexJsonText = some cexParsedDirect ∧
    cexParsedWrapped ≠ cexParsedDirect ∧
    cleanAndParseJSON (String.mk (wrapFence cexFenceText)) = some cexFenceWrapped ∧
    jsonParseL cexFenceText = some cexFenceDirect ∧
    cexFenceWrapped ≠ cexFenceDirect := by
  refine ⟨rfl, rfl, ?_, rfl, rfl, ?_⟩
  · simp only [cexParsedWrapped, cexParsedDirect, ne_eq, Json.obj.injEq,
      List.cons.injEq, Prod.mk.injEq, Json.str.injEq, and_true, not_and]
    intro _
    decide
  · simp only [cexFenceWrapped, cexFenceDirect, ne_eq, Json.obj.injEq,
      List.cons.injEq, Prod.mk.injEq, Json.str.injEq, and_true, not_and]
    intro _
    decide

/-- C8 amended: for every well-formed JSON object text `{…}` that contains
no bare-fence run (three consecutive backticks) and no
comma-whitespace-closer sequence anywhere (so the global rewrites cannot
touch it), and for EVERY text `t` obtained from it by inserting trailing
commas before any closer occurrences — closing braces or brackets, final or
not, any number of insertions — the Normalizer recovers exactly the object
of the clean text both on the fence-wrapped `t` and on `t` itself (taking
zero insertions gives the pure fence-wrapping case).  On empty input the
failure is deterministic, but it is the `JSON.parse` exception propagating
(the function has no catch), modelled as `none`. -/
theorem normalizer_roundtrip_amended (mid : List Char) (t : List Char) (j : Json)
    (hrel : InsBefore closers (lbrace :: mid ++ [rbrace]) t)
    (hfence : containsSeq fenceBare (lbrace :: mid ++ [rbrace]) = false)
    (hc1 : hasCommaClose rbrace (lbrace :: mid ++ [rbrace]) = false)
    (hc2 : hasCommaClose rbrack (lbrace :: mid ++ [rbrace]) = false)
    (hj : jsonParseL (lbrace :: mid ++ [rbrace]) = some j) :
    cleanAndParseJSON (String.mk (wrapFence t)) = some j ∧
    cleanAndParseJSON (String.mk t) = some j ∧
    cleanAndParseJSON ("") = none := by
  have hclosers : ∀ c ∈ closers, c = rbrace ∨ c = rbrack := by
    intro c hcm
    simpa [closers] using hcm
  have hsub1 : ∀ c ∈ closers, c = rbrace ∨ c ∈ [rbrack] := by
    intro c hcm
    simpa [closers] using hcm
  have hcl1 : ∀ c ∈ ([rbrack] : List Char), c = rbrace ∨ c = rbrack := by
    intro c hcm
    simp at hcm
    exact Or.inr hcm
  have hsub2 : ∀ c ∈ ([rbrack] : List Char), c = rbrack ∨ c ∈ ([] : List Char) := by
    intro c hcm
    simp at hcm
    exact Or.inl hcm
  have hfb_t : containsSeq fenceBare t = false :=
    insBefore_no_fenceBare closers hclosers hrel hfence
  have hfj_t : containsSeq fenceJson t = false :=
    containsSeq_fenceJson_of_fenceBare t hfb_t
  refine ⟨?_, ?_, rfl⟩
  · have hcontain : containsSeq fenceJson (t ++ '\n' :: fenceBare) = false :=
      containsSeq_append_safe fenceJson '\n' fenceBare (by decide) (by decide) t hfj_t
    have e1 : stripJsonFence (wrapFence t) = t ++ '\n' :: fenceBare :=
      stripJsonFence_wrapped _ hcontain
    have e2 : stripBareFence (t ++ '\n' :: fenceBare) = t ++ ['\n'] :=
      stripBareFence_tail t hfb_t
    have hrel' : InsBefore closers ((lbrace :: mid ++ [rbrace]) ++ ['\n']) (t ++ ['\n']) :=
      InsBefore.append closers hrel (.keep '\n' .nil)
    have hh1 : hasCommaClose rbrace ((lbrace :: mid ++ [rbrace]) ++ ['\n']) = false :=
      hasCommaClose_append_nl rbrace (by decide) _ hc1
    have hh2 : hasCommaClose rbrack ((lbrace :: mid ++ [rbrace]) ++ ['\n']) = false :=
      hasCommaClose_append_nl rbrack (by decide) _ hc2
    obtain ⟨t1, e3, hrel1⟩ := stripCommaCloseF_removes rbrace (Or.inl rfl)
      closers [rbrack] hclosers hsub1 hrel' ((t ++ ['\n']).length) hh1 le_rfl
    obtain ⟨t2, e4, hrel2⟩ := stripCommaCloseF_removes rbrack (Or.inr rfl)
      [rbrack] [] hcl1 hsub2 hrel1 t1.length hh2 le_rfl
    have ht2 : t2 = (lbrace :: mid ++ [rbrace]) ++ ['\n'] :=
      InsBefore.eq_of_nil_closers hrel2
    have e3' : stripCommaClose rbrace (t ++ ['\n']) = t1 := e3
    have e4' : stripCommaClose rbrack t1 = t2 := e4
    show jsonParseL (braceSlice (trimChars (stripCommaClose rbrack
      (stripCommaClose rbrace (stripBareFence
        (stripJsonFence (wrapFence t))))))) = some j
    rw [e1, e2, e3', e4', ht2, trimChars_object_nl, braceSlice_object, hj]
  · have e1 : stripJsonFence t = t := stripFenceF_eq_self fenceJson t hfj_t _
    have e2 : stripBareFence t = t := stripFenceF_eq_self fenceBare t hfb_t _
    obtain ⟨t1, e3, hrel1⟩ := stripCommaCloseF_removes rbrace (Or.inl rfl)
      closers [rbrack] hclosers hsub1 hrel t.length hc1 le_rfl
    obtain ⟨t2, e4, hrel2⟩ := stripCommaCloseF_removes rbrack (Or.inr rfl)
      [rbrack] [] hcl1 hsub2 hrel1 t1.length hc2 le_rfl
    have ht2 : t2 = lbrace :: mid ++ [rbrace] := InsBefore.eq_of_nil_closers hrel2
    have e3' : stripCommaClose rbrace t = t1 := e3
    have e4' : stripCommaClose rbrack t1 = t2 := e4
    show jsonParseL (braceSlice (trimChars (stripCommaClose rbrack
      (stripCommaClose rbrace (stripBareFence (stripJsonFence t)))))) = some j
    rw [e1, e2, e3', e4', ht2, trimChars_object, braceSlice_object, hj]

/-- Witness for C8 (amended) at the concrete text `{"a": [1]}` with commas
inserted before both the non-final closing bracket and the final closing
brace, fence-wrapped and bare. -/
theorem normalizer_roundtrip_amended_witness :
    cleanAndParseJSON (String.mk (wrapFence c8wt)) = some c8wobj ∧
    cleanAndParseJSON (String.mk c8wt) = some c8wobj ∧
    cleanAndParseJSON ("") = none := by
  have hrel : InsBefore closers (lbrace :: c8wmid ++ [rbrace]) c8wt :=
    InsBefore.keep lbrace (.keep quoteC (.keep 'a' (.keep quoteC (.keep ':'
      (.keep ' ' (.keep lbrack (.keep '1' (.ins rbrack (by decide)
        (.ins rbrace (by decide) .nil)))))))))
  exact normalizer_roundtrip_amended c8wmid c8wt c8wobj hrel (by decide)
    (by decide) (by decide) rfl
